import Mathlib

/-!
Shallow embedding of `utils/eval_utils.py` (ISLES22 evaluation metrics).

A 3-D binary mask is a `Volume`: grid extents together with a boolean payload;
only positions inside the extents count as voxels.  The external
`cc3d.connected_components` labeler is modelled by an executable
min-representative labeling (`connected_components`); the evaluation functions
`compute_dice`, `compute_absolute_volume_difference`,
`compute_number_of_clusters` and `compute_lesion_f1_score` are translated
statement by statement from the Python source.  Python floats are modelled by
`ℚ` (all arithmetic appearing here is exact), a raised exception by
`Except.error`, and NumPy's `int16` cast by `toInt16 : ℕ → ℤ`.
-/

namespace Isles22

/-- A grid position (x, y, z). -/
abbrev Pos : Type := ℕ × ℕ × ℕ

/-- A dense 3-D boolean volume: extents plus payload.  Positions outside the
extents are not voxels of the volume. -/
structure Volume where
  nx : ℕ
  ny : ℕ
  nz : ℕ
  data : Pos → Bool

/-- The shape of the array, as compared by `im1.shape != im2.shape`. -/
def Volume.dims (v : Volume) : ℕ × ℕ × ℕ := (v.nx, v.ny, v.nz)

/-- Foreground test: the position is inside the extents and its payload is
`true`.  This is the boolean array after `astype(np.bool)`. -/
def Volume.fg (v : Volume) (p : Pos) : Bool :=
  decide (p.1 < v.nx) && decide (p.2.1 < v.ny) && decide (p.2.2 < v.nz) && v.data p

/-- All positions of the array, in raster (lexicographic) order. -/
def allVoxels (v : Volume) : List Pos :=
  (List.range v.nx).flatMap fun x =>
    (List.range v.ny).flatMap fun y =>
      (List.range v.nz).map fun z => (x, y, z)

/-- `im.sum()` on the boolean array: the number of true voxels. -/
def Volume.count (v : Volume) : ℕ :=
  (allVoxels v).countP fun p => v.fg p

/-- The 26 offsets to the neighbours of a voxel in the 3x3x3 cube around it. -/
def offsets26 : List (ℤ × ℤ × ℤ) :=
  (([-1, 0, 1] : List ℤ).flatMap fun dx =>
    ([-1, 0, 1] : List ℤ).flatMap fun dy =>
      ([-1, 0, 1] : List ℤ).map fun dz => (dx, dy, dz)).filter
    fun d => decide (d ≠ ((0 : ℤ), (0 : ℤ), (0 : ℤ)))

/-- Offsets selected by the cc3d connectivity parameter: 6 keeps face
neighbours, 18 face and edge neighbours, 26 all neighbours. -/
def offsets (connectivity : ℕ) : List (ℤ × ℤ × ℤ) :=
  if connectivity = 6 then
    offsets26.filter fun d => decide (d.1.natAbs + d.2.1.natAbs + d.2.2.natAbs ≤ 1)
  else if connectivity = 18 then
    offsets26.filter fun d => decide (d.1.natAbs + d.2.1.natAbs + d.2.2.natAbs ≤ 2)
  else offsets26

/-- Grid neighbours of a position under the given connectivity (clipped at the
lower boundary; the upper boundary is handled by the foreground test). -/
def nbrs (connectivity : ℕ) (p : Pos) : List Pos :=
  (offsets connectivity).filterMap fun d =>
    let x : ℤ := (p.1 : ℤ) + d.1
    let y : ℤ := (p.2.1 : ℤ) + d.2.1
    let z : ℤ := (p.2.2 : ℤ) + d.2.2
    if 0 ≤ x ∧ 0 ≤ y ∧ 0 ≤ z then some (x.toNat, y.toNat, z.toNat) else none

/-- One step of region growing: add every foreground neighbour of the set. -/
def expand (v : Volume) (connectivity : ℕ) (s : List Pos) : List Pos :=
  (s ++ (s.flatMap (nbrs connectivity)).filter fun q => v.fg q).dedup

/-- Modelled from the spec: the set of voxels reachable from `p` through
foreground voxels under the chosen neighbourhood (spec section 4.1,
ConnectivityLabeler); computed by saturating `expand`. -/
def reachSet (v : Volume) (connectivity : ℕ) (p : Pos) : List Pos :=
  (expand v connectivity)^[(allVoxels v).length] [p]

/-- Representative of the component of `p`: the first voxel in raster order
that `p` reaches. -/
def rep (v : Volume) (connectivity : ℕ) (p : Pos) : Pos :=
  ((allVoxels v).filter fun q => decide (q ∈ reachSet v connectivity p)).headI

/-- The foreground voxels of the volume, in raster order. -/
def fgVoxels (v : Volume) : List Pos :=
  (allVoxels v).filter fun p => v.fg p

/-- The distinct component representatives, in order of first appearance. -/
def repsList (v : Volume) (connectivity : ℕ) : List Pos :=
  ((fgVoxels v).map (rep v connectivity)).dedup

/-- Index of a position in a list of positions (length of the list when the
position does not occur). -/
def posIdx (r : Pos) : List Pos → ℕ
  | [] => 0
  | q :: l => if q = r then 0 else posIdx r l + 1

/-- Modelled from the spec: `cc3d.connected_components`, the external 3-D
connected-components labeler (spec section 4.1, ConnectivityLabeler).  Every
foreground voxel receives the 1-based index of its component representative
among the distinct representatives; background voxels receive 0. -/
def connected_components (v : Volume) (connectivity : ℕ) (p : Pos) : ℕ :=
  if v.fg p then posIdx (rep v connectivity p) (repsList v connectivity) + 1 else 0

/-- `labeled_im.max()`: the largest label of the labeling, i.e. the cluster
count K. -/
def maxLabel (v : Volume) (connectivity : ℕ) : ℕ :=
  ((allVoxels v).map (connected_components v connectivity)).foldr max 0

/-- NumPy's `astype('int16')` on a non-negative integer: wrap modulo 2^16 into
the signed range [-32768, 32767]. -/
def toInt16 (n : ℕ) : ℤ :=
  if n % 65536 < 32768 then ((n % 65536 : ℕ) : ℤ) else ((n % 65536 : ℕ) : ℤ) - 65536

/-- Python exceptions raised (or modelled) by the source. -/
inductive PyErr where
  | valueError : PyErr
  | unboundLocal : PyErr
deriving DecidableEq

/-- `compute_number_of_clusters` (eval_utils.py lines 126-144):
`cc3d.connected_components(im, connectivity).max().astype('int16')`. -/
def compute_number_of_clusters (im : Volume) (connectivity : ℕ) : ℤ :=
  toInt16 (maxLabel im connectivity)

/-- `np.logical_and(im1, im2).sum()` for equal-shape arrays. -/
def interCount (im1 im2 : Volume) : ℕ :=
  (allVoxels im1).countP fun p => im1.fg p && im2.fg p

/-- `compute_dice` (eval_utils.py lines 8-49): shape check raising
`ValueError`, empty case returning `empty_value`, otherwise
`2 * intersection.sum() / im_sum`. -/
def compute_dice (im1 im2 : Volume) (empty_value : ℚ) : Except PyErr ℚ :=
  if im1.dims ≠ im2.dims then Except.error PyErr.valueError
  else
    let im_sum : ℕ := im1.count + im2.count
    if im_sum = 0 then Except.ok empty_value
    else Except.ok (2 * (interCount im1 im2 : ℚ) / (im_sum : ℚ))

/-- `compute_absolute_volume_difference` (eval_utils.py lines 52-90): on shape
mismatch the source only emits `warnings.warn` and continues.  The first
component records whether a warning was emitted; the second is the returned
value `abs(sum(im1)*voxel_size - sum(im2)*voxel_size)`. -/
def compute_absolute_volume_difference (im1 im2 : Volume) (voxel_size : ℚ) :
    Bool × ℚ :=
  (decide (im1.dims ≠ im2.dims),
   |(im1.count : ℚ) * voxel_size - (im2.count : ℚ) * voxel_size|)

/-- The elementwise AND `intersection = np.logical_and(ground_truth, prediction)`. -/
def inter (gt pred : Volume) (p : Pos) : Bool :=
  gt.fg p && pred.fg p

/-- Loop test of the tp/fn loop (eval_utils.py line 192):
`np.logical_and(binary_cluster_image, intersection).any()` for the
ground-truth cluster with label `l`. -/
def tpPred (gt pred : Volume) (connectivity : ℕ) (l : ℕ) : Bool :=
  (allVoxels gt).any fun p =>
    decide (connected_components gt connectivity p = l) && inter gt pred p

/-- Loop test of the fp loop (eval_utils.py line 203):
`np.logical_and(binary_cluster_image, ground_truth).any()` for the prediction
cluster with label `l`. -/
def fpPred (gt pred : Volume) (connectivity : ℕ) (l : ℕ) : Bool :=
  (allVoxels pred).any fun p =>
    decide (connected_components pred connectivity p = l) && gt.fg p

/-- The tp/fn loop of `compute_lesion_f1_score` (eval_utils.py lines 189-195):
iterate over ground-truth labels `1 .. max`, increment tp on overlap with the
intersection, fn otherwise. -/
def tpfn (gt pred : Volume) (connectivity : ℕ) : ℕ × ℕ :=
  if 0 < maxLabel gt connectivity then
    (List.range' 1 (maxLabel gt connectivity)).foldl
      (fun acc l =>
        if tpPred gt pred connectivity l then (acc.1 + 1, acc.2)
        else (acc.1, acc.2 + 1))
      (0, 0)
  else (0, 0)

/-- The fp loop of `compute_lesion_f1_score` (eval_utils.py lines 200-204):
iterate over prediction labels `1 .. max`, increment fp when the cluster has no
overlap with the raw ground-truth mask. -/
def fpCount (gt pred : Volume) (connectivity : ℕ) : ℕ :=
  if 0 < maxLabel pred connectivity then
    (List.range' 1 (maxLabel pred connectivity)).foldl
      (fun acc l => if !fpPred gt pred connectivity l then acc + 1 else acc) 0
  else 0

/-- The prediction clusters that are matched, i.e. not counted as FP. -/
def matchedPredCount (gt pred : Volume) (connectivity : ℕ) : ℕ :=
  (List.range' 1 (maxLabel pred connectivity)).countP fun l =>
    fpPred gt pred connectivity l

/-- `compute_lesion_f1_score` (eval_utils.py lines 147-213).  The final branch
assigns `f1_score` only when `tp+fp+fn == 0` holds together with
`compute_number_of_clusters(ground_truth) == 0` (note: called with the default
connectivity 26), or in the `else` branch; reaching `return f1_score` with the
variable unassigned raises `UnboundLocalError`, modelled as `Except.error`. -/
def compute_lesion_f1_score (gt pred : Volume) (empty_value : ℚ)
    (connectivity : ℕ) : Except PyErr ℚ :=
  let tp : ℕ := (tpfn gt pred connectivity).1
  let fn : ℕ := (tpfn gt pred connectivity).2
  let fp : ℕ := fpCount gt pred connectivity
  if tp + fp + fn = 0 then
    if compute_number_of_clusters gt 26 = 0 then Except.ok empty_value
    else Except.error PyErr.unboundLocal
  else Except.ok ((tp : ℚ) / ((tp : ℚ) + ((fp : ℚ) + (fn : ℚ)) / 2))

/-- Ground truth of the witness scenarios: a single foreground voxel. -/
def voxA : Volume := ⟨1, 1, 1, fun _ => true⟩

/-- An all-background volume of the same shape as `voxA`. -/
def voxE : Volume := ⟨1, 1, 1, fun _ => false⟩

/-- Two diagonally touching voxels in a 2x2x1 grid. -/
def voxDiag : Volume :=
  ⟨2, 2, 1, fun p => decide (p = ((0 : ℕ), (0 : ℕ), (0 : ℕ)))
    || decide (p = ((1 : ℕ), (1 : ℕ), (0 : ℕ)))⟩

/-- A 1x1x10 all-foreground volume (10 true voxels). -/
def volTen : Volume := ⟨1, 1, 10, fun _ => true⟩

/-- A 1x1x4 all-foreground volume (4 true voxels); its shape differs from
`volTen`. -/
def volFour : Volume := ⟨1, 1, 4, fun _ => true⟩

/-! ### Basic facts about voxel enumeration, the labeling and list folds -/

theorem mem_allVoxels {v : Volume} {p : Pos} :
    p ∈ allVoxels v ↔ p.1 < v.nx ∧ p.2.1 < v.ny ∧ p.2.2 < v.nz := by
  obtain ⟨x, y, z⟩ := p
  simp [allVoxels]
  constructor
  · rintro ⟨a, ha, b, hb, c, hc, rfl, rfl, rfl⟩
    exact ⟨ha, hb, hc⟩
  · rintro ⟨hx, hy, hz⟩
    exact ⟨x, hx, y, hy, z, hz, rfl, rfl, rfl⟩

theorem fg_bounds {v : Volume} {p : Pos} (h : v.fg p = true) :
    p.1 < v.nx ∧ p.2.1 < v.ny ∧ p.2.2 < v.nz := by
  simp only [Volume.fg, Bool.and_eq_true, decide_eq_true_eq] at h
  exact ⟨h.1.1.1, h.1.1.2, h.1.2⟩

theorem mem_allVoxels_of_fg {v : Volume} {p : Pos} (h : v.fg p = true) :
    p ∈ allVoxels v :=
  mem_allVoxels.mpr (fg_bounds h)

theorem allVoxels_congr {a b : Volume} (h : a.dims = b.dims) :
    allVoxels a = allVoxels b := by
  simp only [Volume.dims, Prod.mk.injEq] at h
  unfold allVoxels
  rw [h.1, h.2.1, h.2.2]

theorem foldr_max_le {l : List ℕ} {b : ℕ} (h : ∀ x ∈ l, x ≤ b) :
    l.foldr max 0 ≤ b := by
  induction l with
  | nil => exact Nat.zero_le b
  | cons a t ih =>
      simp only [List.foldr_cons]
      exact max_le (h a (by simp)) (ih fun x hx => h x (by simp [hx]))

theorem le_foldr_max {l : List ℕ} {x : ℕ} (h : x ∈ l) : x ≤ l.foldr max 0 := by
  induction l with
  | nil => cases h
  | cons a t ih =>
      rcases List.mem_cons.mp h with rfl | hx
      · exact le_max_left _ _
      · exact le_trans (ih hx) (le_max_right _ _)

theorem posIdx_lt_length {r : Pos} {l : List Pos} (h : r ∈ l) :
    posIdx r l < l.length := by
  induction l with
  | nil => cases h
  | cons q t ih =>
      by_cases hq : q = r
      · simp [posIdx, hq]
      · rcases List.mem_cons.mp h with rfl | hr
        · exact absurd rfl hq
        · simp only [posIdx, if_neg hq, List.length_cons]
          exact Nat.succ_lt_succ (ih hr)

theorem posIdx_get_of_nodup {l : List Pos} (hn : l.Nodup) (i : ℕ)
    (h : i < l.length) : posIdx (l.get ⟨i, h⟩) l = i := by
  induction l generalizing i with
  | nil => exact absurd h (Nat.not_lt_zero i)
  | cons q t ih =>
      rcases List.nodup_cons.mp hn with ⟨hq, ht⟩
      cases i with
      | zero => simp [posIdx]
      | succ j =>
          have hj : j < t.length := Nat.lt_of_succ_lt_succ h
          have hmem : t.get ⟨j, hj⟩ ∈ t := List.get_mem t j hj
          have hne : q ≠ t.get ⟨j, hj⟩ := fun e => hq (e ▸ hmem)
          simp only [List.get_cons_succ, posIdx, if_neg hne]
          rw [ih ht j hj]

theorem connected_components_eq_zero {v : Volume} {conn : ℕ} {p : Pos}
    (h : v.fg p = false) : connected_components v conn p = 0 := by
  simp [connected_components, h]

theorem rep_mem_repsList {v : Volume} {conn : ℕ} {p : Pos}
    (h : v.fg p = true) : rep v conn p ∈ repsList v conn := by
  apply List.mem_dedup.mpr
  exact List.mem_map_of_mem _
    (List.mem_filter.mpr ⟨mem_allVoxels_of_fg h, h⟩)

theorem connected_components_le (v : Volume) (conn : ℕ) (p : Pos) :
    connected_components v conn p ≤ (repsList v conn).length := by
  unfold connected_components
  by_cases h : v.fg p = true
  · rw [if_pos h]
    exact posIdx_lt_length (rep_mem_repsList h)
  · rw [if_neg h]
    exact Nat.zero_le _

theorem maxLabel_le (v : Volume) (conn : ℕ) :
    maxLabel v conn ≤ (repsList v conn).length := by
  apply foldr_max_le
  intro x hx
  rcases List.mem_map.mp hx with ⟨p, _, rfl⟩
  exact connected_components_le v conn p

theorem exists_fg_label {v : Volume} {conn l : ℕ} (h1 : 1 ≤ l)
    (h2 : l ≤ maxLabel v conn) :
    ∃ p, v.fg p = true ∧ connected_components v conn p = l := by
  have hlen : l - 1 < (repsList v conn).length := by
    have := maxLabel_le v conn
    omega
  have hrmem : (repsList v conn).get ⟨l - 1, hlen⟩ ∈ repsList v conn :=
    List.get_mem _ _ _
  rcases List.mem_map.mp (List.mem_dedup.mp hrmem) with ⟨p, hp, hrep⟩
  have hfg : v.fg p = true := (List.mem_filter.mp hp).2
  refine ⟨p, hfg, ?_⟩
  have hidx : posIdx ((repsList v conn).get ⟨l - 1, hlen⟩) (repsList v conn)
      = l - 1 := posIdx_get_of_nodup (List.nodup_dedup _) _ hlen
  rw [connected_components, if_pos hfg, hrep, hidx]
  omega

theorem maxLabel_eq_zero_iff {v : Volume} {conn : ℕ} :
    maxLabel v conn = 0 ↔ ∀ p, v.fg p = false := by
  constructor
  · intro h p
    by_contra hp
    have hfg : v.fg p = true := by revert hp; cases v.fg p <;> simp
    have hle : connected_components v conn p ≤ maxLabel v conn :=
      le_foldr_max (List.mem_map_of_mem _ (mem_allVoxels_of_fg hfg))
    have hpos : 1 ≤ connected_components v conn p := by
      rw [connected_components, if_pos hfg]
      omega
    omega
  · intro h
    have hle : maxLabel v conn ≤ 0 := by
      apply foldr_max_le
      intro x hx
      rcases List.mem_map.mp hx with ⟨p, _, rfl⟩
      exact le_of_eq (connected_components_eq_zero (h p))
    omega

/-! ### The two counting loops of the lesion-wise F1 score -/

theorem foldl_pair_count (P : ℕ → Bool) (l : List ℕ) :
    ∀ a b : ℕ,
      l.foldl (fun acc x => if P x then (acc.1 + 1, acc.2) else (acc.1, acc.2 + 1))
          (a, b)
        = (a + l.countP P, b + l.countP fun x => !P x) := by
  induction l with
  | nil => intro a b; simp
  | cons x t ih =>
      intro a b
      by_cases h : P x = true
      · simp [List.foldl_cons, h, ih, List.countP_cons, Prod.ext_iff]
        omega
      · have h' : P x = false := by revert h; cases P x <;> simp
        simp [List.foldl_cons, h', ih, List.countP_cons, Prod.ext_iff]
        omega

theorem foldl_count (P : ℕ → Bool) (l : List ℕ) :
    ∀ a : ℕ, l.foldl (fun acc x => if P x then acc + 1 else acc) a
      = a + l.countP P := by
  induction l with
  | nil => intro a; simp
  | cons x t ih =>
      intro a
      by_cases h : P x = true
      · simp [List.foldl_cons, h, ih, List.countP_cons]
        omega
      · have h' : P x = false := by revert h; cases P x <;> simp
        simp [List.foldl_cons, h', ih, List.countP_cons]

theorem countP_add_countP_not (P : ℕ → Bool) (l : List ℕ) :
    l.countP P + l.countP (fun x => !P x) = l.length := by
  induction l with
  | nil => rfl
  | cons x t ih =>
      by_cases h : P x = true
      · simp [List.countP_cons, h]
        omega
      · have h' : P x = false := by revert h; cases P x <;> simp
        simp [List.countP_cons, h']
        omega

theorem tpfn_eq (gt pred : Volume) (conn : ℕ) :
    tpfn gt pred conn
      = ((List.range' 1 (maxLabel gt conn)).countP (tpPred gt pred conn),
         (List.range' 1 (maxLabel gt conn)).countP fun l => !tpPred gt pred conn l) := by
  unfold tpfn
  by_cases h : 0 < maxLabel gt conn
  · rw [if_pos h, foldl_pair_count]
    simp
  · rw [if_neg h]
    have h0 : maxLabel gt conn = 0 := by omega
    simp [h0]

theorem fpCount_eq (gt pred : Volume) (conn : ℕ) :
    fpCount gt pred conn
      = (List.range' 1 (maxLabel pred conn)).countP
          fun l => !fpPred gt pred conn l := by
  unfold fpCount
  by_cases h : 0 < maxLabel pred conn
  · rw [if_pos h, foldl_count]
    simp
  · rw [if_neg h]
    have h0 : maxLabel pred conn = 0 := by omega
    simp [h0]

theorem tp_add_fn (gt pred : Volume) (conn : ℕ) :
    (tpfn gt pred conn).1 + (tpfn gt pred conn).2 = maxLabel gt conn := by
  rw [tpfn_eq]
  have := countP_add_countP_not (tpPred gt pred conn)
    (List.range' 1 (maxLabel gt conn))
  simpa using this

theorem matched_add_fp (gt pred : Volume) (conn : ℕ) :
    matchedPredCount gt pred conn + fpCount gt pred conn = maxLabel pred conn := by
  rw [fpCount_eq, matchedPredCount]
  have := countP_add_countP_not (fpPred gt pred conn)
    (List.range' 1 (maxLabel pred conn))
  simpa using this

theorem fpCount_le (gt pred : Volume) (conn : ℕ) :
    fpCount gt pred conn ≤ maxLabel pred conn := by
  have := matched_add_fp gt pred conn
  omega

theorem fpPred_false_of_gt_empty {gt : Volume} (pred : Volume) {conn : ℕ}
    (h : ∀ p, gt.fg p = false) (l : ℕ) : fpPred gt pred conn l = false := by
  simp [fpPred, h]

theorem fpCount_of_gt_empty {gt : Volume} (pred : Volume) {conn : ℕ}
    (h : ∀ p, gt.fg p = false) :
    fpCount gt pred conn = maxLabel pred conn := by
  rw [fpCount_eq]
  have hall : ∀ l ∈ List.range' 1 (maxLabel pred conn),
      (!fpPred gt pred conn l) = true := by
    intro l _
    rw [fpPred_false_of_gt_empty pred h l]
    rfl
  rw [List.countP_eq_length.mpr hall, List.length_range']

/-- The key internal invariant: tp+fp+fn vanishes exactly when both volumes
have no clusters at all. -/
theorem sum_zero_iff_empty (gt pred : Volume) (conn : ℕ) :
    (tpfn gt pred conn).1 + fpCount gt pred conn + (tpfn gt pred conn).2 = 0
      ↔ maxLabel gt conn = 0 ∧ maxLabel pred conn = 0 := by
  constructor
  · intro h
    have hgt : maxLabel gt conn = 0 := by
      have := tp_add_fn gt pred conn
      omega
    have hempty : ∀ p, gt.fg p = false := maxLabel_eq_zero_iff.mp hgt
    have hfp : fpCount gt pred conn = maxLabel pred conn :=
      fpCount_of_gt_empty pred hempty
    exact ⟨hgt, by omega⟩
  · rintro ⟨h1, h2⟩
    have htf := tp_add_fn gt pred conn
    have hfp := fpCount_le gt pred conn
    omega

theorem toInt16_zero : toInt16 0 = 0 := by
  simp [toInt16]

/-- Evaluation of `compute_lesion_f1_score`: it always returns `Except.ok` of
the aggregated score (the unassigned-variable branch is unreachable). -/
theorem lesion_f1_run (gt pred : Volume) (ev : ℚ) (conn : ℕ) :
    compute_lesion_f1_score gt pred ev conn
      = Except.ok
          (if (tpfn gt pred conn).1 + fpCount gt pred conn + (tpfn gt pred conn).2 = 0
           then ev
           else ((tpfn gt pred conn).1 : ℚ)
             / (((tpfn gt pred conn).1 : ℚ)
                 + ((fpCount gt pred conn : ℚ) + ((tpfn gt pred conn).2 : ℚ)) / 2)) := by
  unfold compute_lesion_f1_score
  by_cases h : (tpfn gt pred conn).1 + fpCount gt pred conn + (tpfn gt pred conn).2 = 0
  · have hgt : maxLabel gt conn = 0 := ((sum_zero_iff_empty gt pred conn).mp h).1
    have hempty : ∀ p, gt.fg p = false := maxLabel_eq_zero_iff.mp hgt
    have h26 : maxLabel gt 26 = 0 := maxLabel_eq_zero_iff.mpr hempty
    have hn : compute_number_of_clusters gt 26 = 0 := by
      rw [compute_number_of_clusters, h26, toInt16_zero]
    rw [if_pos h, if_pos hn, if_pos h]
  · rw [if_neg h, if_neg h]

/-! ### Pointwise characterization of the loop predicates -/

theorem tpPred_iff (gt pred : Volume) (conn l : ℕ) :
    tpPred gt pred conn l = true
      ↔ ∃ p ∈ allVoxels gt, connected_components gt conn p = l
          ∧ gt.fg p = true ∧ pred.fg p = true := by
  simp [tpPred, inter, and_assoc]

theorem fpPred_iff (gt pred : Volume) (conn l : ℕ) :
    fpPred gt pred conn l = true
      ↔ ∃ p ∈ allVoxels pred, connected_components pred conn p = l
          ∧ gt.fg p = true := by
  simp [fpPred]

theorem not_tpPred_iff (gt pred : Volume) (conn l : ℕ) :
    (!tpPred gt pred conn l) = true
      ↔ ¬ ∃ p ∈ allVoxels gt, connected_components gt conn p = l
          ∧ gt.fg p = true ∧ pred.fg p = true := by
  rw [← tpPred_iff gt pred conn l]
  cases tpPred gt pred conn l <;> simp

theorem not_fpPred_iff (gt pred : Volume) (conn l : ℕ) :
    (!fpPred gt pred conn l) = true
      ↔ ¬ ∃ p ∈ allVoxels pred, connected_components pred conn p = l
          ∧ gt.fg p = true := by
  rw [← fpPred_iff gt pred conn l]
  cases fpPred gt pred conn l <;> simp

theorem tp_exists_unbounded (gt pred : Volume) (conn l : ℕ) :
    (∃ p ∈ allVoxels gt, connected_components gt conn p = l
        ∧ gt.fg p = true ∧ pred.fg p = true)
      ↔ ∃ p, connected_components gt conn p = l
          ∧ gt.fg p = true ∧ pred.fg p = true := by
  constructor
  · rintro ⟨p, _, hp⟩
    exact ⟨p, hp⟩
  · rintro ⟨p, h1, h2, h3⟩
    exact ⟨p, mem_allVoxels_of_fg h2, h1, h2, h3⟩

theorem fp_exists_unbounded {gt pred : Volume} (h : gt.dims = pred.dims)
    (conn l : ℕ) :
    (∃ p ∈ allVoxels pred, connected_components pred conn p = l ∧ gt.fg p = true)
      ↔ ∃ p, connected_components pred conn p = l ∧ gt.fg p = true := by
  constructor
  · rintro ⟨p, _, hp⟩
    exact ⟨p, hp⟩
  · rintro ⟨p, h1, h2⟩
    refine ⟨p, ?_, h1, h2⟩
    rw [← allVoxels_congr h]
    exact mem_allVoxels_of_fg h2

/-! ### Dice and int16 helpers -/

theorem interCount_comm {a b : Volume} (h : a.dims = b.dims) :
    interCount a b = interCount b a := by
  unfold interCount
  rw [allVoxels_congr h]
  apply List.countP_congr
  intro p _
  constructor <;> intro hp <;> simp only [Bool.and_eq_true] at hp ⊢ <;>
    exact ⟨hp.2, hp.1⟩

theorem toInt16_of_le {n : ℕ} (h : n ≤ 32767) : toInt16 n = (n : ℤ) := by
  unfold toInt16
  rw [Nat.mod_eq_of_lt (by omega)]
  rw [if_pos (by omega)]

theorem toInt16_le (n : ℕ) : toInt16 n ≤ 32767 := by
  unfold toInt16
  have hm : n % 65536 < 65536 := Nat.mod_lt n (by omega)
  by_cases h : n % 65536 < 32768
  · rw [if_pos h]
    omega
  · rw [if_neg h]
    omega

theorem neg_le_toInt16 (n : ℕ) : -32768 ≤ toInt16 n := by
  unfold toInt16
  have hm : n % 65536 < 65536 := Nat.mod_lt n (by omega)
  by_cases h : n % 65536 < 32768
  · rw [if_pos h]
    omega
  · rw [if_neg h]
    omega

theorem toInt16_emod (n : ℕ) : toInt16 n % 65536 = (n : ℤ) % 65536 := by
  unfold toInt16
  have hcast : ((n % 65536 : ℕ) : ℤ) = (n : ℤ) % 65536 := by push_cast; ring_nf
  by_cases h : n % 65536 < 32768
  · rw [if_pos h, hcast]
    omega
  · rw [if_neg h, hcast]
    omega

theorem dice_eval_of_dims_eq {A B : Volume} (h : A.dims = B.dims) (ev : ℚ) :
    compute_dice A B ev
      = Except.ok (if A.count + B.count = 0 then ev
          else 2 * (interCount A B : ℚ) / ((A.count + B.count : ℕ) : ℚ)) := by
  unfold compute_dice
  rw [if_neg (fun hn => hn h)]
  by_cases hs : A.count + B.count = 0
  · simp [hs]
  · simp [hs]

/-! ### The claims -/

/-- C1: for equal-shape boolean volumes, the counting loops of
`compute_lesion_f1_score` classify each ground-truth cluster (labels
`1 .. K_gt`, taken only when the ground truth has at least one cluster) as TP
exactly when some voxel of the cluster is true in the elementwise AND of
ground truth and prediction and as FN otherwise, and count a prediction
cluster as FP exactly when it has zero overlap with the raw ground-truth
mask.  The trailing conjuncts show that quantifying over the enumerated
voxels is the same as quantifying over all positions. -/
theorem lesion_classification_correct (gt pred : Volume) (conn : ℕ)
    (h : gt.dims = pred.dims) :
    ((tpfn gt pred conn).1
        = (List.range' 1 (maxLabel gt conn)).countP (fun l =>
            decide (∃ p ∈ allVoxels gt, connected_components gt conn p = l
              ∧ gt.fg p = true ∧ pred.fg p = true))
      ∧ (tpfn gt pred conn).2
        = (List.range' 1 (maxLabel gt conn)).countP (fun l =>
            decide ¬(∃ p ∈ allVoxels gt, connected_components gt conn p = l
              ∧ gt.fg p = true ∧ pred.fg p = true))
      ∧ fpCount gt pred conn
        = (List.range' 1 (maxLabel pred conn)).countP (fun l =>
            decide ¬(∃ p ∈ allVoxels pred, connected_components pred conn p = l
              ∧ gt.fg p = true)))
    ∧ (∀ l, (∃ p ∈ allVoxels gt, connected_components gt conn p = l
          ∧ gt.fg p = true ∧ pred.fg p = true)
        ↔ ∃ p, connected_components gt conn p = l
            ∧ gt.fg p = true ∧ pred.fg p = true)
    ∧ (∀ l, (∃ p ∈ allVoxels pred, connected_components pred conn p = l
          ∧ gt.fg p = true)
        ↔ ∃ p, connected_components pred conn p = l ∧ gt.fg p = true) := by
  refine ⟨⟨?_, ?_, ?_⟩, fun l => tp_exists_unbounded gt pred conn l,
    fun l => fp_exists_unbounded h conn l⟩
  · rw [tpfn_eq]
    exact List.countP_congr fun l _ => by
      rw [tpPred_iff gt pred conn l, decide_eq_true_eq]
  · rw [tpfn_eq]
    exact List.countP_congr fun l _ => by
      rw [not_tpPred_iff gt pred conn l, decide_eq_true_eq]
  · rw [fpCount_eq]
    exact List.countP_congr fun l _ => by
      rw [not_fpPred_iff gt pred conn l, decide_eq_true_eq]

/-- C1 witness at a concrete input. -/
theorem lesion_classification_correct_witness :
    voxA.dims = voxA.dims
      ∧ (tpfn voxA voxA 26).1
          = (List.range' 1 (maxLabel voxA 26)).countP (fun l =>
              decide (∃ p ∈ allVoxels voxA, connected_components voxA 26 p = l
                ∧ voxA.fg p = true ∧ voxA.fg p = true)) :=
  ⟨rfl, (lesion_classification_correct voxA voxA 26 rfl).1.1⟩

/-- C2: for equal-shape boolean volumes, `compute_lesion_f1_score` returns
`empty_value` when tp+fp+fn equals 0 and tp / (tp + (fp+fn)/2) otherwise. -/
theorem lesion_f1_formula (gt pred : Volume) (ev : ℚ) (conn : ℕ)
    (_h : gt.dims = pred.dims) :
    compute_lesion_f1_score gt pred ev conn
      = Except.ok
          (if (tpfn gt pred conn).1 + fpCount gt pred conn
                + (tpfn gt pred conn).2 = 0
           then ev
           else ((tpfn gt pred conn).1 : ℚ)
             / (((tpfn gt pred conn).1 : ℚ)
                 + ((fpCount gt pred conn : ℚ)
                     + ((tpfn gt pred conn).2 : ℚ)) / 2)) :=
  lesion_f1_run gt pred ev conn

/-- C2 witness at a concrete input. -/
theorem lesion_f1_formula_witness :
    voxDiag.dims = voxDiag.dims
      ∧ compute_lesion_f1_score voxDiag voxDiag (1/2) 6
          = Except.ok
              (if (tpfn voxDiag voxDiag 6).1 + fpCount voxDiag voxDiag 6
                    + (tpfn voxDiag voxDiag 6).2 = 0
               then 1/2
               else ((tpfn voxDiag voxDiag 6).1 : ℚ)
                 / (((tpfn voxDiag voxDiag 6).1 : ℚ)
                     + ((fpCount voxDiag voxDiag 6 : ℚ)
                         + ((tpfn voxDiag voxDiag 6).2 : ℚ)) / 2)) :=
  ⟨rfl, lesion_f1_formula voxDiag voxDiag (1/2) 6 rfl⟩

/-- C3: for equal-shape boolean volumes, tp+fp+fn vanishes exactly when both
the ground-truth and the prediction cluster counts are 0, and
`compute_lesion_f1_score` raises (reaches `return` with `f1_score` unassigned,
i.e. `UnboundLocalError`, modelled as `Except.error`) exactly when an
arithmetically zero sum occurs without both masks being empty of lesions —
a situation the first conjunct shows to be impossible, so the error branch is
never taken silently nor otherwise bypassed. -/
theorem lesion_sum_zero_invariant (gt pred : Volume) (ev : ℚ) (conn : ℕ)
    (_h : gt.dims = pred.dims) :
    ((tpfn gt pred conn).1 + fpCount gt pred conn + (tpfn gt pred conn).2 = 0
        ↔ maxLabel gt conn = 0 ∧ maxLabel pred conn = 0)
      ∧ (compute_lesion_f1_score gt pred ev conn
            = Except.error PyErr.unboundLocal
          ↔ (tpfn gt pred conn).1 + fpCount gt pred conn
                + (tpfn gt pred conn).2 = 0
              ∧ ¬(maxLabel gt conn = 0 ∧ maxLabel pred conn = 0)) := by
  refine ⟨sum_zero_iff_empty gt pred conn, ?_, ?_⟩
  · intro he
    rw [lesion_f1_run] at he
    cases he
  · rintro ⟨hs, hn⟩
    exact absurd ((sum_zero_iff_empty gt pred conn).mp hs) hn

/-- C3 witness at a concrete input. -/
theorem lesion_sum_zero_invariant_witness :
    voxA.dims = voxE.dims
      ∧ (((tpfn voxA voxE 26).1 + fpCount voxA voxE 26
              + (tpfn voxA voxE 26).2 = 0
            ↔ maxLabel voxA 26 = 0 ∧ maxLabel voxE 26 = 0)
          ∧ (compute_lesion_f1_score voxA voxE 1 26
                = Except.error PyErr.unboundLocal
              ↔ (tpfn voxA voxE 26).1 + fpCount voxA voxE 26
                    + (tpfn voxA voxE 26).2 = 0
                  ∧ ¬(maxLabel voxA 26 = 0 ∧ maxLabel voxE 26 = 0))) :=
  ⟨rfl, lesion_sum_zero_invariant voxA voxE 1 26 rfl⟩

/-- C4: for equal-shape boolean volumes the lesion-wise matching is
exhaustive: tp + fn equals the ground-truth cluster count, the prediction
clusters not counted as FP plus fp equal the prediction cluster count, and
whenever the cluster count is at most 32767 the ground-truth cluster count is
also what `compute_number_of_clusters` returns at the same connectivity. -/
theorem lesion_counts_exhaustive (gt pred : Volume) (conn : ℕ)
    (_h : gt.dims = pred.dims) :
    (tpfn gt pred conn).1 + (tpfn gt pred conn).2 = maxLabel gt conn
      ∧ matchedPredCount gt pred conn + fpCount gt pred conn
          = maxLabel pred conn
      ∧ (maxLabel gt conn ≤ 32767 →
          compute_number_of_clusters gt conn
            = (((tpfn gt pred conn).1 + (tpfn gt pred conn).2 : ℕ) : ℤ)) := by
  refine ⟨tp_add_fn gt pred conn, matched_add_fp gt pred conn, fun hle => ?_⟩
  rw [compute_number_of_clusters, toInt16_of_le hle, tp_add_fn gt pred conn]

/-- C4 witness at a concrete input. -/
theorem lesion_counts_exhaustive_witness :
    voxDiag.dims = voxDiag.dims
      ∧ (tpfn voxDiag voxDiag 6).1 + (tpfn voxDiag voxDiag 6).2
          = maxLabel voxDiag 6 :=
  ⟨rfl, (lesion_counts_exhaustive voxDiag voxDiag 6 rfl).1⟩

/-- C5: the claim says `compute_absolute_volume_difference` fails fast with a
shape error on mismatched shapes; the code instead only warns (first
component `true`) and computes the result with mismatching-shape masks,
here 10·1.0 − 4·1.0 = 6 for a 1x1x10 versus a 1x1x4 all-true mask. -/
theorem volume_difference_warns_and_continues :
    compute_absolute_volume_difference volTen volFour 1 = (true, 6) := by
  have h10 : volTen.count = 10 := by decide
  have h4 : volFour.count = 4 := by decide
  rw [compute_absolute_volume_difference, h10, h4]
  simp only [Prod.mk.injEq]
  refine ⟨by decide, by norm_num⟩

/-- C6: comparing a non-empty mask against itself yields lesion-wise F1
exactly 1: every ground-truth cluster is a TP, there are no FN and no FP. -/
theorem lesion_f1_self_eq_one (A : Volume) (ev : ℚ) (conn : ℕ)
    (h : 0 < A.count) (_hc : conn = 6 ∨ conn = 18 ∨ conn = 26) :
    compute_lesion_f1_score A A ev conn = Except.ok 1 := by
  have hfg : ∃ p ∈ allVoxels A, A.fg p = true := by
    rw [← List.countP_pos_iff]
    exact h
  obtain ⟨p0, hp0mem, hp0⟩ := hfg
  have hK : 1 ≤ maxLabel A conn := by
    have hle : connected_components A conn p0 ≤ maxLabel A conn :=
      le_foldr_max (List.mem_map_of_mem _ hp0mem)
    have hpos : 1 ≤ connected_components A conn p0 := by
      rw [connected_components, if_pos hp0]
      omega
    omega
  have htp : ∀ l ∈ List.range' 1 (maxLabel A conn), tpPred A A conn l = true := by
    intro l hl
    rw [List.mem_range'_1] at hl
    obtain ⟨q, hqfg, hqlab⟩ := exists_fg_label hl.1 (show l ≤ maxLabel A conn by omega)
    rw [tpPred_iff]
    exact ⟨q, mem_allVoxels_of_fg hqfg, hqlab, hqfg, hqfg⟩
  have hfp : ∀ l ∈ List.range' 1 (maxLabel A conn), fpPred A A conn l = true := by
    intro l hl
    rw [List.mem_range'_1] at hl
    obtain ⟨q, hqfg, hqlab⟩ := exists_fg_label hl.1 (show l ≤ maxLabel A conn by omega)
    rw [fpPred_iff]
    exact ⟨q, mem_allVoxels_of_fg hqfg, hqlab, hqfg⟩
  have htp' : (tpfn A A conn).1 = maxLabel A conn := by
    rw [tpfn_eq]
    simp only
    rw [List.countP_eq_length.mpr htp, List.length_range']
  have hfn' : (tpfn A A conn).2 = 0 := by
    rw [tpfn_eq]
    simp only
    rw [List.countP_eq_zero]
    intro l hl
    rw [htp l hl]
    simp
  have hfp' : fpCount A A conn = 0 := by
    rw [fpCount_eq, List.countP_eq_zero]
    intro l hl
    rw [hfp l hl]
    simp
  rw [lesion_f1_run, htp', hfn', hfp']
  rw [if_neg (by omega)]
  have hKQ : ((maxLabel A conn : ℕ) : ℚ) ≠ 0 := by
    have : (0 : ℚ) < ((maxLabel A conn : ℕ) : ℚ) := by
      exact_mod_cast hK
    exact ne_of_gt this
  norm_num
  rw [div_self hKQ]

/-- C6 witness at a concrete input. -/
theorem lesion_f1_self_eq_one_witness :
    0 < voxA.count ∧ compute_lesion_f1_score voxA voxA (3/4) 26 = Except.ok 1 :=
  ⟨by decide, lesion_f1_self_eq_one voxA (3/4) 26 (by decide)
    (Or.inr (Or.inr rfl))⟩

/-- C7: on equal-shape volumes `compute_dice` is symmetric in its two mask
arguments, including the degenerate case where both masks are empty. -/
theorem dice_symmetric (A B : Volume) (ev : ℚ) (h : A.dims = B.dims) :
    compute_dice A B ev = compute_dice B A ev := by
  rw [dice_eval_of_dims_eq h ev, dice_eval_of_dims_eq h.symm ev,
    interCount_comm h, Nat.add_comm A.count B.count]

/-- C7 witness at a concrete input. -/
theorem dice_symmetric_witness :
    voxA.dims = voxE.dims
      ∧ compute_dice voxA voxE 1 = compute_dice voxE voxA 1 :=
  ⟨rfl, dice_symmetric voxA voxE 1 rfl⟩

/-- C8: `compute_dice` raises its shape error exactly when the two volumes
have different shapes; on equal shapes it never fails and returns
`empty_value` when both masks sum to zero and 2·|A∩B| / (|A|+|B|)
otherwise. -/
theorem dice_shape_error_spec (A B : Volume) (ev : ℚ) :
    (compute_dice A B ev = Except.error PyErr.valueError ↔ A.dims ≠ B.dims)
      ∧ (A.dims = B.dims →
          compute_dice A B ev
            = Except.ok (if A.count + B.count = 0 then ev
                else 2 * (interCount A B : ℚ) / ((A.count + B.count : ℕ) : ℚ))) := by
  constructor
  · by_cases hd : A.dims = B.dims
    · rw [dice_eval_of_dims_eq hd ev]
      constructor
      · intro he
        cases he
      · intro hne
        exact absurd hd hne
    · constructor
      · intro _
        exact hd
      · intro _
        rw [compute_dice, if_pos hd]
  · intro hd
    exact dice_eval_of_dims_eq hd ev

/-- C8 witness at a concrete input. -/
theorem dice_shape_error_spec_witness :
    compute_dice voxA voxE 1
      = Except.ok (if voxA.count + voxE.count = 0 then 1
          else 2 * (interCount voxA voxE : ℚ)
            / ((voxA.count + voxE.count : ℕ) : ℚ)) :=
  (dice_shape_error_spec voxA voxE 1).2 rfl

/-- C9: `compute_number_of_clusters` is the maximum label of the labeling cast
to a 16-bit signed integer: it equals the true cluster count exactly when that
count is at most 32767, it is always congruent to the true count modulo 2^16,
it always lies in [-32768, 32767] (so any larger true count is misreported),
and the cast can produce a negative value (32768 wraps to -32768). -/
theorem number_of_clusters_int16 (im : Volume) (conn : ℕ) :
    compute_number_of_clusters im conn = toInt16 (maxLabel im conn)
      ∧ (maxLabel im conn ≤ 32767
          ↔ compute_number_of_clusters im conn = ((maxLabel im conn : ℕ) : ℤ))
      ∧ compute_number_of_clusters im conn % 65536
          = ((maxLabel im conn : ℕ) : ℤ) % 65536
      ∧ -32768 ≤ compute_number_of_clusters im conn
      ∧ compute_number_of_clusters im conn ≤ 32767
      ∧ toInt16 32768 = -32768 := by
  refine ⟨rfl, ⟨fun hle => toInt16_of_le hle, fun heq => ?_⟩,
    toInt16_emod (maxLabel im conn), neg_le_toInt16 (maxLabel im conn),
    toInt16_le (maxLabel im conn), by decide⟩
  have hle := toInt16_le (maxLabel im conn)
  rw [compute_number_of_clusters] at heq
  omega

/-- C9 witness at a concrete input. -/
theorem number_of_clusters_int16_witness :
    maxLabel voxA 26 ≤ 32767
      ∧ compute_number_of_clusters voxA 26 = ((maxLabel voxA 26 : ℕ) : ℤ) :=
  ⟨by decide, (number_of_clusters_int16 voxA 26).2.1.mp (by decide)⟩

/-- C10: the empty branch of `compute_lesion_f1_score` assigns `f1_score`
only under the extra guard `compute_number_of_clusters(ground_truth) == 0`
with no covering else, yet the function always returns an assigned value,
because tp+fp+fn = 0 forces that guard to hold (the unassigned-variable
branch is unreachable). -/
theorem lesion_f1_always_assigned (gt pred : Volume) (ev : ℚ) (conn : ℕ)
    (_h : gt.dims = pred.dims) :
    ((tpfn gt pred conn).1 + fpCount gt pred conn + (tpfn gt pred conn).2 = 0
        → compute_number_of_clusters gt 26 = 0)
      ∧ ∃ q, compute_lesion_f1_score gt pred ev conn = Except.ok q := by
  constructor
  · intro hs
    have hgt := ((sum_zero_iff_empty gt pred conn).mp hs).1
    have hempty := maxLabel_eq_zero_iff.mp hgt
    rw [compute_number_of_clusters, maxLabel_eq_zero_iff.mpr hempty, toInt16_zero]
  · exact ⟨_, lesion_f1_run gt pred ev conn⟩

/-- C10 witness at a concrete input. -/
theorem lesion_f1_always_assigned_witness :
    voxE.dims = voxE.dims
      ∧ (((tpfn voxE voxE 26).1 + fpCount voxE voxE 26
              + (tpfn voxE voxE 26).2 = 0
            → compute_number_of_clusters voxE 26 = 0)
          ∧ ∃ q, compute_lesion_f1_score voxE voxE 1 26 = Except.ok q) :=
  ⟨rfl, lesion_f1_always_assigned voxE voxE 1 26 rfl⟩

end Isles22
